import Mathlib

set_option maxHeartbeats 1000000

/-!
Shallow embedding of `src/app/app.py` (Rule 116 — "SPLIT Requires MODE").

Source text is modelled as `List Char`.  The two compiled regular
expressions of the source are modelled as executable matchers:

* `STMT_RE = (?is)\bSPLIT\b[^.]*\.` — `matchEndAt` / `findMatchFrom` /
  `stmtMatches` reproduce `STMT_RE.finditer`: leftmost matching, each match
  running from a word-bounded case-insensitive `SPLIT` keyword to the first
  following `.`, scanning resuming at each match end.
* `MODE_RE = (?i)\bIN\s+(CHARACTER|BYTE)\s+MODE\b` — `hasMode` reproduces
  `MODE_RE.search`.

The regex classes `\w` and `\s` are modelled over their ASCII portions
(alphanumerics plus underscore, and the six ASCII whitespace characters),
and case-insensitivity via ASCII lowercasing, matching Python's behaviour
on ASCII source text.
-/

namespace Rule116

/-- Word character: the regex class backslash-w (ASCII part), used by the
word-boundary assertions of both regexes. -/
def isWordChar (c : Char) : Bool := c.isAlphanum || c == '_'

/-- Whitespace: the regex class backslash-s (ASCII part): space, tab,
newline, carriage return, vertical tab, form feed. -/
def isPySpace (c : Char) : Bool :=
  c == ' ' || c == '\t' || c == '\n' || c == '\r' ||
  c == Char.ofNat 11 || c == Char.ofNat 12

/-- Case-insensitive character comparison (re.IGNORECASE on ASCII). -/
def charEqCI (a b : Char) : Bool := a.toLower == b.toLower

/-- Case-insensitive literal test: does `ks` occur at the head of `l`? -/
def prefixCI : List Char → List Char → Bool
  | [], _ => true
  | _ :: _, [] => false
  | k :: ks, c :: cs => charEqCI k c && prefixCI ks cs

/-- Case-insensitive literal consumption: drop `ks` from the head of `l`,
returning the rest, or `none` if `l` does not start with `ks`. -/
def dropCI : List Char → List Char → Option (List Char)
  | [], rest => some rest
  | _ :: _, [] => none
  | k :: ks, c :: cs => if charEqCI k c then dropCI ks cs else none

/-- Consume a maximal run of whitespace. -/
def skipSpaces : List Char → List Char
  | [] => []
  | c :: cs => if isPySpace c then skipSpaces cs else c :: cs

/-- Consume one-or-more whitespace characters (the regex piece backslash-s+;
maximal munch is equivalent here because each continuation starts with a
non-whitespace letter). -/
def spaces1 : List Char → Option (List Char)
  | [] => none
  | c :: cs => if isPySpace c then some (skipSpaces cs) else none

/-- Tail of MODE_RE after the alternation: one-or-more whitespace, the
literal MODE, then a word boundary. -/
def modeTailAfterAlt (r : List Char) : Bool :=
  match spaces1 r with
  | none => false
  | some r3 =>
    match dropCI ("MODE".data) r3 with
    | none => false
    | some rest =>
      match rest with
      | [] => true
      | c :: _ => !isWordChar c

/-- Tail of MODE_RE after the literal IN: one-or-more whitespace, then
CHARACTER or BYTE (case-insensitive), then `modeTailAfterAlt`. -/
def modeSuffixAfterIN (s : List Char) : Bool :=
  match spaces1 s with
  | none => false
  | some r1 =>
    match dropCI ("CHARACTER".data) r1 with
    | some r2 => modeTailAfterAlt r2
    | none =>
      match dropCI ("BYTE".data) r1 with
      | some r2 => modeTailAfterAlt r2
      | none => false

/-- Does MODE_RE match starting exactly here?  `prev` is the character just
before this position (`none` at the start of the string); the word boundary
before IN requires it to be absent or a non-word character. -/
def modeAtHere (prev : Option Char) (s : List Char) : Bool :=
  (match prev with
   | none => true
   | some c => !isWordChar c) &&
  (match dropCI ("IN".data) s with
   | none => false
   | some r => modeSuffixAfterIN r)

/-- Scan all positions of `stmt` for a MODE_RE match (re.search). -/
def hasModeAux (prev : Option Char) : List Char → Bool
  | [] => modeAtHere prev []
  | c :: cs => modeAtHere prev (c :: cs) || hasModeAux (some c) cs

/-- `MODE_RE.search(stmt) is not None`. -/
def hasMode (stmt : List Char) : Bool := hasModeAux none stmt

/-- Does `\bSPLIT\b` match at offset `i` of `text`?  Word boundary before:
`i` is 0 or the previous character is not a word character; word boundary
after: offset `i + 5` is the end of text or a non-word character. -/
def keywordAt (text : List Char) (i : Nat) : Bool :=
  (decide (i = 0) || !isWordChar (text.getD (i - 1) ' ')) &&
  prefixCI ("SPLIT".data) (text.drop i) &&
  (decide (i + 5 = text.length) || !isWordChar (text.getD (i + 5) ' '))

/-- Index of the first '.' of `l`, if any. -/
def firstDotIdx : List Char → Option Nat
  | [] => none
  | c :: cs => if c == '.' then some 0 else (firstDotIdx cs).map (· + 1)

/-- Absolute offset of the first '.' of `text` at or after offset `p`. -/
def firstDotFrom (text : List Char) (p : Nat) : Option Nat :=
  (firstDotIdx (text.drop p)).map (fun j => p + j)

/-- End offset (exclusive) of the STMT_RE match anchored at offset `i`, if
any: the keyword must match at `i` and `[^.]*\.` then extends the match to
just past the first '.' at or after `i + 5`. -/
def matchEndAt (text : List Char) (i : Nat) : Option Nat :=
  if keywordAt text i then (firstDotFrom text (i + 5)).map (· + 1) else none

/-- Leftmost STMT_RE match at or after `pos`: try each offset in turn.
`fuel` bounds the recursion; `findMatchFrom` supplies enough to reach the
end of the text. -/
def findMatchAux (text : List Char) : Nat → Nat → Option (Nat × Nat)
  | 0, _ => none
  | fuel + 1, pos =>
    match matchEndAt text pos with
    | some e => some (pos, e)
    | none => findMatchAux text fuel (pos + 1)

/-- Leftmost STMT_RE match starting at or after offset `pos`. -/
def findMatchFrom (text : List Char) (pos : Nat) : Option (Nat × Nat) :=
  findMatchAux text (text.length + 1 - pos) pos

/-- All STMT_RE matches from `pos` on, leftmost first, resuming after each
match end (re.finditer).  Every match is nonempty, so `text.length + 1`
fuel always suffices. -/
def scanAux (text : List Char) : Nat → Nat → List (Nat × Nat)
  | 0, _ => []
  | fuel + 1, pos =>
    match findMatchFrom text pos with
    | none => []
    | some (s, e) => (s, e) :: scanAux text fuel e

/-- `STMT_RE.finditer(src)`: the (start, end) offset pairs of all matches. -/
def stmtMatches (text : List Char) : List (Nat × Nat) :=
  scanAux text (text.length + 1) 0

/-- `m.group(0)`: the slice `text[s:e]`. -/
def stmtSlice (text : List Char) (s e : Nat) : List Char :=
  (text.drop s).take (e - s)

/-- Return 1-based line number for a 0-based character offset
(`text.count("\n", 0, off) + 1`). -/
def line_of_offset (text : List Char) (off : Nat) : Nat :=
  (text.take off).count '\n' + 1

/-- Replace every newline by the two characters backslash, n
(`.replace("\n", "\\n")`). -/
def escNL : List Char → List Char
  | [] => []
  | c :: cs => if c == '\n' then '\\' :: 'n' :: escNL cs else c :: escNL cs

/-- Return a short context snippet with escaped newlines:
`text[max(0, start - 60) : min(len(text), end + 60)]` with newlines
replaced.  Truncated subtraction plays the role of `max(0, start - 60)`. -/
def snippet_at (text : List Char) (start : Nat) (stop : Nat) : List Char :=
  escNL ((text.take (min text.length (stop + 60))).drop (start - 60))

/-- The `Unit` pydantic model: one code unit submitted for scanning. -/
structure Unit where
  pgm_name : String
  inc_name : String
  type : String
  name : Option String
  start_line : Option Int
  end_line : Option Int
  code : Option (List Char)
deriving DecidableEq, Repr

/-- One finding dict as built inside `scan_unit`. -/
structure Finding where
  pgm_name : String
  inc_name : String
  type : String
  name : Option String
  start_line : Option Int
  end_line : Option Int
  issue_type : String
  severity : String
  line : Nat
  message : String
  suggestion : String
  snippet : List Char
deriving DecidableEq, Repr

/-- The dict appended to `findings` for a non-compliant match `(s, e)`. -/
def mkFinding (u : Rule116.Unit) (src : List Char) (s e : Nat) : Finding :=
  { pgm_name := u.pgm_name
    inc_name := u.inc_name
    type := u.type
    name := u.name
    start_line := u.start_line
    end_line := u.end_line
    issue_type := "SplitWithoutMode"
    severity := "warning"
    line := line_of_offset src s
    message := "SPLIT without MODE. Specify IN CHARACTER MODE (text) or IN BYTE MODE (binary)."
    suggestion := "SPLIT <text> AT <sep> INTO <f1> <f2> ... IN CHARACTER MODE.\n* or *\nSPLIT <xbin> AT <xsep> INTO <x1> <x2> ... IN BYTE MODE. Specify IN CHARACTER MODE (text) or IN BYTE MODE (binary)."
    snippet := snippet_at src s e }

/-- The `for m in STMT_RE.finditer(src)` loop body: keep a finding for each
match whose statement text has no MODE addition. -/
def scanLoop (u : Rule116.Unit) (src : List Char) : List (Nat × Nat) → List Finding
  | [] => []
  | m :: ms =>
    if hasMode (stmtSlice src m.1 m.2) then scanLoop u src ms
    else mkFinding u src m.1 m.2 :: scanLoop u src ms

/-- The response object of `scan_unit`: the unit's own fields
(`unit.model_dump()`) plus the `rule116_findings` key. -/
structure UnitResult where
  unit : Rule116.Unit
  rule116_findings : List Finding
deriving DecidableEq, Repr

/-- `scan_unit`: scan one unit's code (`unit.code or ""`) and attach the
findings list. -/
def scan_unit (u : Rule116.Unit) : UnitResult :=
  let src := u.code.getD []
  { unit := u
    rule116_findings := scanLoop u src (stmtMatches src) }

/-- The matches of `stmtMatches src` whose statement text fails the MODE
check — exactly the matches for which `scan_unit` emits a finding. -/
def qualMatches (src : List Char) : List (Nat × Nat) :=
  (stmtMatches src).filter (fun m => !hasMode (stmtSlice src m.1 m.2))

/-- The `/remediate-array` handler `scan_rule`: scan each unit in order and
keep only the results with a non-empty findings list. -/
def scan_rule : List Rule116.Unit → List UnitResult
  | [] => []
  | u :: us =>
    let res := scan_unit u
    if res.rule116_findings.isEmpty then scan_rule us
    else res :: scan_rule us

/-! ### Concrete fixtures used to instantiate the theorems -/

/-- Fixture: a unit whose code is one SPLIT statement missing the MODE
addition, preceded by one other line. -/
def uNoMode : Rule116.Unit :=
  { pgm_name := "ZPROG"
    inc_name := "ZINC"
    type := "FORM"
    name := some "F1"
    start_line := some 10
    end_line := some 20
    code := some ("ln1\nSPLIT a AT b INTO c d.".data) }

/-- Fixture: a unit whose only SPLIT statement carries IN CHARACTER MODE. -/
def uWithMode : Rule116.Unit :=
  { uNoMode with code := some ("SPLIT a AT b INTO c d IN CHARACTER MODE.".data) }

/-- Fixture: a unit whose code has a SPLIT keyword but no terminator. -/
def uNoDot : Rule116.Unit :=
  { uNoMode with code := some ("SPLIT a AT b INTO c d".data) }

/-- Fixture: a unit whose code field is absent. -/
def uNoCode : Rule116.Unit :=
  { uNoMode with code := none }

/-- Fixture text: one terminated SPLIT statement and one dangling keyword. -/
def t3fix : List Char := "x SPLIT a. SPLIT".data

/-- Fallback finding, used only as the default of getD in fixtures. -/
def fDefault : Finding := mkFinding uNoMode [] 0 0

end Rule116

namespace Rule116

/-! ### List index utilities -/

theorem getD_drop (l : List α) (i j : Nat) (d : α) :
    (l.drop i).getD j d = l.getD (i + j) d := by
  induction l generalizing i with
  | nil => simp
  | cons c cs ih =>
    cases i with
    | zero => simp
    | succ i =>
      have : i + 1 + j = (i + j) + 1 := by omega
      simp [this, ih]

theorem getD_take (l : List α) (n j : Nat) (d : α) (h : j < n) :
    (l.take n).getD j d = l.getD j d := by
  induction l generalizing n j with
  | nil => simp
  | cons c cs ih =>
    cases n with
    | zero => omega
    | succ n =>
      cases j with
      | zero => simp
      | succ j => simpa using ih n j (by omega)

theorem mem_of_getD (l : List α) (j : Nat) (d : α) (h : j < l.length) :
    l.getD j d ∈ l := by
  induction l generalizing j with
  | nil => simp at h
  | cons c cs ih =>
    cases j with
    | zero => simp
    | succ j =>
      simp only [List.getD_cons_succ]
      exact List.mem_cons_of_mem _ (ih j (by simpa using h))

/-! ### prefixCI lemmas -/

theorem prefixCI_length_le (ks l : List Char) (h : prefixCI ks l = true) :
    ks.length ≤ l.length := by
  induction ks generalizing l with
  | nil => simp
  | cons k ks ih =>
    cases l with
    | nil => simp [prefixCI] at h
    | cons c cs =>
      simp only [prefixCI, Bool.and_eq_true] at h
      simpa using ih cs h.2

theorem prefixCI_getD (ks l : List Char) (h : prefixCI ks l = true)
    (j : Nat) (hj : j < ks.length) :
    charEqCI (ks.getD j ' ') (l.getD j ' ') = true := by
  induction ks generalizing l j with
  | nil => simp at hj
  | cons k ks ih =>
    cases l with
    | nil => simp [prefixCI] at h
    | cons c cs =>
      simp only [prefixCI, Bool.and_eq_true] at h
      cases j with
      | zero => simpa using h.1
      | succ j => simpa using ih cs h.2 j (by simpa using hj)

theorem splitKW_toLower_ne_dot :
    ∀ j, j < 5 → charEqCI (("SPLIT".data).getD j ' ') '.' = false := by decide

/-- A character matched case-insensitively against the SPLIT keyword is not
a period. -/
theorem keyword_char_ne_dot (text : List Char) (i j : Nat)
    (h : prefixCI ("SPLIT".data) (text.drop i) = true) (hj : j < 5) :
    text.getD (i + j) ' ' ≠ '.' := by
  intro hdot
  have h1 := prefixCI_getD _ _ h j (by simpa using hj)
  rw [getD_drop, hdot] at h1
  have h2 := splitKW_toLower_ne_dot j hj
  rw [h1] at h2
  simp at h2

/-- The keyword test at offset `i` includes a case-insensitive SPLIT at the
head of `text.drop i`. -/
theorem keywordAt_prefix (text : List Char) (i : Nat)
    (h : keywordAt text i = true) :
    prefixCI ("SPLIT".data) (text.drop i) = true := by
  simp only [keywordAt, Bool.and_eq_true] at h
  exact h.1.2

/-! ### firstDotIdx lemmas -/

theorem firstDotIdx_some (l : List Char) (j : Nat)
    (h : firstDotIdx l = some j) :
    j < l.length ∧ l.getD j ' ' = '.' ∧ ∀ i, i < j → l.getD i ' ' ≠ '.' := by
  induction l generalizing j with
  | nil => simp [firstDotIdx] at h
  | cons c cs ih =>
    by_cases hc : c = '.'
    · have h0 : j = 0 := by
        simp [firstDotIdx, hc] at h
        omega
      subst h0
      exact ⟨by simp, by simp [hc], by omega⟩
    · have hc' : (c == '.') = false := by simpa using hc
      cases hfd : firstDotIdx cs with
      | none => simp [firstDotIdx, hc', hfd] at h
      | some j' =>
        have hj : j = j' + 1 := by
          simp [firstDotIdx, hc', hfd] at h
          omega
        subst hj
        obtain ⟨hlt, hget, hmin⟩ := ih j' hfd
        refine ⟨by simpa using hlt, by simpa using hget, ?_⟩
        intro i hi
        cases i with
        | zero => simpa using hc
        | succ i => simpa using hmin i (by omega)

theorem firstDotIdx_eq_none_iff (l : List Char) :
    firstDotIdx l = none ↔ '.' ∉ l := by
  induction l with
  | nil => simp [firstDotIdx]
  | cons c cs ih =>
    by_cases hc : c = '.'
    · simp [firstDotIdx, hc]
    · have hc' : (c == '.') = false := by simpa using hc
      simp [firstDotIdx, hc', ih, Ne.symm hc]

/-! ### matchEndAt lemmas -/

theorem matchEndAt_some (text : List Char) (i e : Nat)
    (h : matchEndAt text i = some e) :
    keywordAt text i = true ∧ i + 6 ≤ e ∧ e ≤ text.length ∧
    text.getD (e - 1) ' ' = '.' ∧
    ∀ j, i + 5 ≤ j → j + 1 < e → text.getD j ' ' ≠ '.' := by
  by_cases hk : keywordAt text i = true
  · simp only [matchEndAt, hk, if_true, firstDotFrom, Option.map_map,
      Option.map_eq_some'] at h
    obtain ⟨j0, hj0, he⟩ := h
    obtain ⟨hlt, hget, hmin⟩ := firstDotIdx_some _ _ hj0
    rw [List.length_drop] at hlt
    rw [getD_drop] at hget
    have he' : e = i + 5 + j0 + 1 := by
      simpa [Function.comp] using he.symm
    refine ⟨hk, by omega, by omega, ?_, ?_⟩
    · have : e - 1 = i + 5 + j0 := by omega
      rw [this]; exact hget
    · intro j hj1 hj2
      have h5 := hmin (j - (i + 5)) (by omega)
      rw [getD_drop] at h5
      have : i + 5 + (j - (i + 5)) = j := by omega
      rwa [this] at h5
  · simp [matchEndAt, hk] at h

theorem matchEndAt_none_of_ge (text : List Char) (i : Nat)
    (h : text.length ≤ i) :
    matchEndAt text i = none := by
  have hd : text.drop i = [] := List.drop_eq_nil_of_le h
  have hk : keywordAt text i = false := by
    simp [keywordAt, hd, prefixCI]
  simp [matchEndAt, hk]

end Rule116

namespace Rule116

/-! ### findMatchAux / findMatchFrom lemmas -/

theorem findMatchAux_some (text : List Char) :
    ∀ fuel pos s e, findMatchAux text fuel pos = some (s, e) →
      pos ≤ s ∧ matchEndAt text s = some e ∧
      ∀ q, pos ≤ q → q < s → matchEndAt text q = none := by
  intro fuel
  induction fuel with
  | zero => intro pos s e h; simp [findMatchAux] at h
  | succ fuel ih =>
    intro pos s e h
    cases hm : matchEndAt text pos with
    | some e0 =>
      simp only [findMatchAux, hm] at h
      obtain ⟨rfl, rfl⟩ := Prod.mk.injEq .. ▸ Option.some.inj h
      exact ⟨le_refl _, hm, fun q hq1 hq2 => absurd hq1 (by omega)⟩
    | none =>
      simp only [findMatchAux, hm] at h
      obtain ⟨h1, h2, h3⟩ := ih (pos + 1) s e h
      refine ⟨by omega, h2, ?_⟩
      intro q hq1 hq2
      rcases Nat.eq_or_lt_of_le hq1 with rfl | hlt
      · exact hm
      · exact h3 q (by omega) hq2

theorem findMatchAux_none_ge (text : List Char) :
    ∀ fuel pos, text.length + 1 ≤ fuel + pos →
      findMatchAux text fuel pos = none →
      ∀ q, pos ≤ q → matchEndAt text q = none := by
  intro fuel
  induction fuel with
  | zero =>
    intro pos hle _ q hq
    exact matchEndAt_none_of_ge text q (by omega)
  | succ fuel ih =>
    intro pos hle h q hq
    cases hm : matchEndAt text pos with
    | some e0 => simp [findMatchAux, hm] at h
    | none =>
      simp only [findMatchAux, hm] at h
      rcases Nat.eq_or_lt_of_le hq with rfl | hlt
      · exact hm
      · exact ih (pos + 1) (by omega) h q (by omega)

theorem findMatchFrom_some (text : List Char) (pos s e : Nat)
    (h : findMatchFrom text pos = some (s, e)) :
    pos ≤ s ∧ matchEndAt text s = some e ∧
    ∀ q, pos ≤ q → q < s → matchEndAt text q = none :=
  findMatchAux_some text _ pos s e h

theorem findMatchFrom_none (text : List Char) (pos : Nat)
    (h : findMatchFrom text pos = none) :
    ∀ q, pos ≤ q → matchEndAt text q = none := by
  intro q hq
  by_cases hp : pos ≤ text.length + 1
  · exact findMatchAux_none_ge text _ pos (by omega) h q hq
  · exact matchEndAt_none_of_ge text q (by omega)

/-! ### scanAux lemmas -/

theorem scanAux_mem (text : List Char) :
    ∀ fuel pos m, m ∈ scanAux text fuel pos →
      pos ≤ m.1 ∧ matchEndAt text m.1 = some m.2 := by
  intro fuel
  induction fuel with
  | zero => intro pos m h; simp [scanAux] at h
  | succ fuel ih =>
    intro pos m h
    cases hf : findMatchFrom text pos with
    | none => simp [scanAux, hf] at h
    | some se =>
      obtain ⟨s, e⟩ := se
      simp only [scanAux, hf, List.mem_cons] at h
      obtain ⟨h1, h2, _⟩ := findMatchFrom_some text pos s e hf
      obtain ⟨_, h4, _, _, _⟩ := matchEndAt_some text s e h2
      rcases h with rfl | h
      · exact ⟨h1, h2⟩
      · obtain ⟨h5, h6⟩ := ih e m h
        exact ⟨by omega, h6⟩

theorem scanAux_pairwise (text : List Char) :
    ∀ fuel pos, List.Pairwise (fun a b => a.2 ≤ b.1) (scanAux text fuel pos) := by
  intro fuel
  induction fuel with
  | zero => intro pos; simp [scanAux]
  | succ fuel ih =>
    intro pos
    cases hf : findMatchFrom text pos with
    | none => simp [scanAux, hf]
    | some se =>
      obtain ⟨s, e⟩ := se
      simp only [scanAux, hf]
      refine List.Pairwise.cons ?_ (ih e)
      intro b hb
      exact (scanAux_mem text fuel e b hb).1

theorem scanAux_complete (text : List Char) :
    ∀ fuel pos, text.length + 1 ≤ fuel + pos →
      ∀ p, pos ≤ p → matchEndAt text p ≠ none →
        ∃ m ∈ scanAux text fuel pos, m.1 ≤ p ∧ p < m.2 := by
  intro fuel
  induction fuel with
  | zero =>
    intro pos hle p hp hne
    exact absurd (matchEndAt_none_of_ge text p (by omega)) hne
  | succ fuel ih =>
    intro pos hle p hp hne
    cases hf : findMatchFrom text pos with
    | none => exact absurd (findMatchFrom_none text pos hf p hp) hne
    | some se =>
      obtain ⟨s, e⟩ := se
      obtain ⟨h1, h2, h3⟩ := findMatchFrom_some text pos s e hf
      obtain ⟨_, h4, h5, _, _⟩ := matchEndAt_some text s e h2
      by_cases hps : p < s
      · exact absurd (h3 p hp hps) hne
      · by_cases hpe : p < e
        · refine ⟨(s, e), ?_, by omega, hpe⟩
          simp [scanAux, hf]
        · obtain ⟨m, hm, hm1, hm2⟩ := ih e (by omega) p (by omega) hne
          refine ⟨m, ?_, hm1, hm2⟩
          simp [scanAux, hf, hm]

theorem scanAux_length_le (text : List Char) :
    ∀ fuel pos, (scanAux text fuel pos).length ≤ (text.drop pos).count '.' := by
  intro fuel
  induction fuel with
  | zero => intro pos; simp [scanAux]
  | succ fuel ih =>
    intro pos
    cases hf : findMatchFrom text pos with
    | none => simp [scanAux, hf]
    | some se =>
      obtain ⟨s, e⟩ := se
      obtain ⟨h1, h2, _⟩ := findMatchFrom_some text pos s e hf
      obtain ⟨_, h4, h5, h6, _⟩ := matchEndAt_some text s e h2
      have hsplit : text.drop pos =
          (text.drop pos).take (e - pos) ++ text.drop e := by
        have : (text.drop pos).drop (e - pos) = text.drop e := by
          rw [List.drop_drop]
          congr 1
          omega
        conv_lhs => rw [← List.take_append_drop (e - pos) (text.drop pos)]
        rw [this]
      have hdotmem : '.' ∈ (text.drop pos).take (e - pos) := by
        have hidx : ((text.drop pos).take (e - pos)).getD (e - 1 - pos) ' ' = '.' := by
          rw [getD_take _ _ _ _ (by omega), getD_drop]
          have : pos + (e - 1 - pos) = e - 1 := by omega
          rw [this]
          exact h6
        have hlen : e - 1 - pos < ((text.drop pos).take (e - pos)).length := by
          simp only [List.length_take, List.length_drop]
          omega
        rw [← hidx]
        exact mem_of_getD _ _ _ hlen
      have hcount1 : 1 ≤ ((text.drop pos).take (e - pos)).count '.' :=
        List.count_pos_iff.mpr hdotmem
      have := ih e
      calc (scanAux text (fuel + 1) pos).length
          = (scanAux text fuel e).length + 1 := by simp [scanAux, hf]
        _ ≤ (text.drop e).count '.' + 1 := by omega
        _ ≤ ((text.drop pos).take (e - pos)).count '.' + (text.drop e).count '.' := by omega
        _ = (text.drop pos).count '.' := by
              conv_rhs => rw [hsplit]
              rw [List.count_append]

end Rule116

namespace Rule116

/-! ### stmtMatches lemmas -/

theorem stmtMatches_mem (text : List Char) (m : Nat × Nat)
    (h : m ∈ stmtMatches text) : matchEndAt text m.1 = some m.2 :=
  (scanAux_mem text _ 0 m h).2

theorem stmtMatches_pairwise (text : List Char) :
    List.Pairwise (fun a b => a.2 ≤ b.1) (stmtMatches text) :=
  scanAux_pairwise text _ 0

theorem stmtMatches_complete (text : List Char) (p : Nat)
    (h : matchEndAt text p ≠ none) :
    ∃ m ∈ stmtMatches text, m.1 ≤ p ∧ p < m.2 :=
  scanAux_complete text _ 0 (by omega) p (Nat.zero_le p) h

theorem stmtMatches_length_le (text : List Char) :
    (stmtMatches text).length ≤ text.count '.' := by
  have := scanAux_length_le text (text.length + 1) 0
  simpa using this

theorem findMatchAux_none_of_all (text : List Char)
    (h : ∀ q, matchEndAt text q = none) :
    ∀ fuel pos, findMatchAux text fuel pos = none := by
  intro fuel
  induction fuel with
  | zero => intro pos; simp [findMatchAux]
  | succ fuel ih => intro pos; simp [findMatchAux, h pos, ih]

theorem stmtMatches_nil_of_none (text : List Char)
    (h : ∀ q, matchEndAt text q = none) :
    stmtMatches text = [] := by
  have hfa := findMatchAux_none_of_all text h
  simp [stmtMatches, scanAux, findMatchFrom, hfa]

/-- A text without any period has no statement match. -/
theorem stmtMatches_nil_of_no_dot (text : List Char) (h : '.' ∉ text) :
    stmtMatches text = [] := by
  refine stmtMatches_nil_of_none text ?_
  intro q
  have hnd : firstDotIdx (text.drop (q + 5)) = none := by
    rw [firstDotIdx_eq_none_iff]
    intro hmem
    exact h (List.drop_subset _ _ hmem)
  simp [matchEndAt, firstDotFrom, hnd]

/-! ### scan_unit characterization -/

theorem scanLoop_eq (u : Rule116.Unit) (src : List Char)
    (ms : List (Nat × Nat)) :
    scanLoop u src ms
      = (ms.filter (fun m => !hasMode (stmtSlice src m.1 m.2))).map
          (fun m => mkFinding u src m.1 m.2) := by
  induction ms with
  | nil => simp [scanLoop]
  | cons m ms ih =>
    cases hm : hasMode (stmtSlice src m.1 m.2) with
    | true => simp [scanLoop, hm, List.filter_cons, ih]
    | false => simp [scanLoop, hm, List.filter_cons, ih]

theorem scan_unit_findings (u : Rule116.Unit) :
    (scan_unit u).rule116_findings
      = (qualMatches (u.code.getD [])).map
          (fun m => mkFinding u (u.code.getD []) m.1 m.2) := by
  simp [scan_unit, qualMatches, scanLoop_eq]

/-! ### escNL lemmas -/

theorem escNL_no_newline (l : List Char) : '\n' ∉ escNL l := by
  induction l with
  | nil => simp [escNL]
  | cons c cs ih =>
    cases hc : c == '\n' with
    | true => simp [escNL, hc, ih]
    | false =>
      have : c ≠ '\n' := by simpa using hc
      simp [escNL, hc, ih, Ne.symm this]

end Rule116

namespace Rule116

/-! ### Claim theorems -/

/-- C1: For every source text, scanning yields exactly one finding per
statement match lacking the mode qualifier (the list of findings is the
image of the qualifying matches, so with N qualifying statements the list
has length N, in source order), and each finding's line number is the count
of newline characters before the statement's first character, plus one. -/
theorem c1_one_finding_per_qualifying_statement (u : Rule116.Unit) :
    (scan_unit u).rule116_findings
        = (qualMatches (u.code.getD [])).map
            (fun m => mkFinding u (u.code.getD []) m.1 m.2)
  ∧ (scan_unit u).rule116_findings.length
        = (qualMatches (u.code.getD [])).length
  ∧ (∀ s e, (mkFinding u (u.code.getD []) s e).line
        = ((u.code.getD []).take s).count '\n' + 1)
  ∧ List.Pairwise (fun a b => a.1 < b.1) (qualMatches (u.code.getD [])) := by
  refine ⟨scan_unit_findings u, ?_, fun s e => rfl, ?_⟩
  · rw [scan_unit_findings, List.length_map]
  · have hpw := (stmtMatches_pairwise (u.code.getD [])).filter
        (fun m => !hasMode (stmtSlice (u.code.getD []) m.1 m.2))
    refine List.Pairwise.imp_of_mem ?_ hpw
    intro a b ha _ hab
    have hma := stmtMatches_mem _ a (List.mem_of_mem_filter ha)
    obtain ⟨_, h6, _, _, _⟩ := matchEndAt_some _ _ _ hma
    omega

/-- C2: A statement in which the mode qualifier pattern occurs anywhere
produces no finding: if every statement match of the source text passes the
MODE check, scanning yields zero findings. -/
theorem c2_mode_qualifier_yields_no_findings (u : Rule116.Unit)
    (h : ∀ m ∈ stmtMatches (u.code.getD []),
        hasMode (stmtSlice (u.code.getD []) m.1 m.2) = true) :
    (scan_unit u).rule116_findings = [] := by
  rw [scan_unit_findings]
  have hq : qualMatches (u.code.getD []) = [] := by
    simp only [qualMatches, List.filter_eq_nil_iff]
    intro m hm
    simp [h m hm]
  simp [hq]

/-- Witness for C2: the fixture whose one SPLIT statement carries
IN CHARACTER MODE yields no findings. -/
theorem c2_witness : (scan_unit uWithMode).rule116_findings = [] :=
  c2_mode_qualifier_yields_no_findings uWithMode (by decide)

/-- C3: every statement match starts at a word-bounded case-insensitive
SPLIT keyword, is at least six characters long, ends inside the text with a
terminator character whose excerpt contains no earlier terminator; matches
are in order and non-overlapping; a keyword occurrence with no terminator
before end-of-text is never a match start; and every offset at which
STMT_RE could match is covered by some match (matches are found
left-to-right, resuming after each match end). -/
theorem c3_statement_extraction (text : List Char) :
    (∀ m ∈ stmtMatches text,
        keywordAt text m.1 = true
      ∧ m.1 + 6 ≤ m.2
      ∧ m.2 ≤ text.length
      ∧ text.getD (m.2 - 1) ' ' = '.'
      ∧ (∀ j, m.1 ≤ j → j + 1 < m.2 → text.getD j ' ' ≠ '.'))
  ∧ List.Pairwise (fun a b => a.2 ≤ b.1) (stmtMatches text)
  ∧ (∀ p, keywordAt text p = true → firstDotFrom text (p + 5) = none →
        ∀ m ∈ stmtMatches text, m.1 ≠ p)
  ∧ (∀ p, matchEndAt text p ≠ none →
        ∃ m ∈ stmtMatches text, m.1 ≤ p ∧ p < m.2) := by
  refine ⟨?_, stmtMatches_pairwise text, ?_, stmtMatches_complete text⟩
  · intro m hm
    have hme := stmtMatches_mem text m hm
    obtain ⟨hk, h6, hlen, hdot, htail⟩ := matchEndAt_some _ _ _ hme
    refine ⟨hk, h6, hlen, hdot, ?_⟩
    intro j hj1 hj2
    by_cases hj5 : j < m.1 + 5
    · have hpre := keywordAt_prefix text m.1 hk
      have hnd := keyword_char_ne_dot text m.1 (j - m.1) hpre (by omega)
      have heq : m.1 + (j - m.1) = j := by omega
      rwa [heq] at hnd
    · exact htail j (by omega) hj2
  · intro p hk hnd m hm hp
    have hme := stmtMatches_mem text m hm
    rw [hp] at hme
    simp [matchEndAt, hk, hnd] at hme

/-- Witness for C3: on the fixture text, the single match (2, 10) starts at
the keyword, ends at the period at offset 9, covers offset 2, and the
dangling keyword at offset 11 is not a match start. -/
theorem c3_witness :
    keywordAt t3fix 2 = true
  ∧ t3fix.getD 9 ' ' = '.'
  ∧ (∃ m ∈ stmtMatches t3fix, m.1 ≤ 2 ∧ 2 < m.2)
  ∧ (2, 10).1 ≠ 11 := by
  have h := c3_statement_extraction t3fix
  refine ⟨(h.1 (2, 10) (by decide)).1, ?_, ?_, ?_⟩
  · have h2 := (h.1 (2, 10) (by decide)).2.2.2.1
    simpa using h2
  · exact h.2.2.2 2 (by decide)
  · exact h.2.2.1 11 (by decide) (by decide) (2, 10) (by decide)

/-- C4: every finding's snippet is the excerpt of the source from at most
60 characters before the statement start to at most 60 characters after its
end, clamped to the text bounds, with every newline escaped; consequently
no finding's snippet contains a raw newline character. -/
theorem c4_snippet_window_and_escaping (u : Rule116.Unit) :
    ∀ f ∈ (scan_unit u).rule116_findings,
      (∃ m ∈ qualMatches (u.code.getD []),
        f.snippet
          = escNL (((u.code.getD []).take
              (min (u.code.getD []).length (m.2 + 60))).drop (m.1 - 60)))
    ∧ '\n' ∉ f.snippet := by
  intro f hf
  rw [scan_unit_findings] at hf
  obtain ⟨m, hm, rfl⟩ := List.mem_map.mp hf
  exact ⟨⟨m, hm, rfl⟩, escNL_no_newline _⟩

/-- Witness for C4: the snippet of the fixture's one finding holds no raw
newline. -/
theorem c4_witness :
    '\n' ∉ ((scan_unit uNoMode).rule116_findings.getD 0 fDefault).snippet :=
  (c4_snippet_window_and_escaping uNoMode
    ((scan_unit uNoMode).rule116_findings.getD 0 fDefault) (by decide)).2

/-- C5: every finding has the fixed issue kind, severity, message and
suggestion, and its identifying attributes are copied verbatim from the
input unit. -/
theorem c5_finding_fields_fixed_and_copied (u : Rule116.Unit) :
    ∀ f ∈ (scan_unit u).rule116_findings,
      f.issue_type = "SplitWithoutMode"
    ∧ f.severity = "warning"
    ∧ f.message = "SPLIT without MODE. Specify IN CHARACTER MODE (text) or IN BYTE MODE (binary)."
    ∧ f.suggestion = "SPLIT <text> AT <sep> INTO <f1> <f2> ... IN CHARACTER MODE.\n* or *\nSPLIT <xbin> AT <xsep> INTO <x1> <x2> ... IN BYTE MODE. Specify IN CHARACTER MODE (text) or IN BYTE MODE (binary)."
    ∧ f.pgm_name = u.pgm_name
    ∧ f.inc_name = u.inc_name
    ∧ f.type = u.type
    ∧ f.name = u.name
    ∧ f.start_line = u.start_line
    ∧ f.end_line = u.end_line := by
  intro f hf
  rw [scan_unit_findings] at hf
  obtain ⟨m, hm, rfl⟩ := List.mem_map.mp hf
  exact ⟨rfl, rfl, rfl, rfl, rfl, rfl, rfl, rfl, rfl, rfl⟩

/-- Witness for C5: the fixture's one finding carries the fixed issue kind
and the unit's program name. -/
theorem c5_witness :
    ((scan_unit uNoMode).rule116_findings.getD 0 fDefault).issue_type
        = "SplitWithoutMode"
  ∧ ((scan_unit uNoMode).rule116_findings.getD 0 fDefault).pgm_name
        = uNoMode.pgm_name := by
  have h := c5_finding_fields_fixed_and_copied uNoMode
      ((scan_unit uNoMode).rule116_findings.getD 0 fDefault) (by decide)
  exact ⟨h.1, h.2.2.2.2.1⟩

/-- C6: the batch endpoint scans each unit in input order and returns
exactly the unit results with a non-empty findings list, in order. -/
theorem c6_batch_keeps_only_units_with_findings (units : List Rule116.Unit) :
    scan_rule units
      = (units.map scan_unit).filter
          (fun r => !r.rule116_findings.isEmpty) := by
  induction units with
  | nil => rfl
  | cons u us ih =>
    cases hr : (scan_unit u).rule116_findings.isEmpty with
    | true => simp [scan_rule, hr, List.filter_cons, ih]
    | false => simp [scan_rule, hr, List.filter_cons, ih]

/-- C7: scanning is total (the embedding is a total function); empty or
absent code yields an empty findings list, and so does any code without a
single terminator character. -/
theorem c7_empty_or_unterminated_code_yields_no_findings (u : Rule116.Unit) :
    ((u.code = none ∨ u.code = some []) →
        (scan_unit u).rule116_findings = [])
  ∧ ('.' ∉ u.code.getD [] → (scan_unit u).rule116_findings = []) := by
  have key : '.' ∉ u.code.getD [] → (scan_unit u).rule116_findings = [] := by
    intro hnd
    have hnil := stmtMatches_nil_of_no_dot _ hnd
    simp [scan_unit, hnil, scanLoop]
  refine ⟨?_, key⟩
  rintro (h | h) <;> apply key <;> simp [h]

/-- Witness for C7: the terminator-less fixture and the code-less fixture
both yield empty findings lists. -/
theorem c7_witness :
    (scan_unit uNoDot).rule116_findings = []
  ∧ (scan_unit uNoCode).rule116_findings = [] :=
  ⟨(c7_empty_or_unterminated_code_yields_no_findings uNoDot).2 (by decide),
   (c7_empty_or_unterminated_code_yields_no_findings uNoCode).1 (Or.inl rfl)⟩

/-- C8: scan is a pure, deterministic function of its input: the result
embeds the input unit unchanged, and equal inputs yield equal results. -/
theorem c8_scan_is_pure (u v : Rule116.Unit) :
    (scan_unit u).unit = u ∧ (u = v → scan_unit u = scan_unit v) :=
  ⟨rfl, fun h => h ▸ rfl⟩

/-- Witness for C8: at the fixture, the result embeds the unit and
rescanning gives the same value. -/
theorem c8_witness :
    (scan_unit uNoMode).unit = uNoMode
  ∧ scan_unit uNoMode = scan_unit uNoMode :=
  ⟨(c8_scan_is_pure uNoMode uNoMode).1, (c8_scan_is_pure uNoMode uNoMode).2 rfl⟩

/-- C9: a unit whose code field is absent is scanned exactly like one whose
code is the empty string: same findings, namely none. -/
theorem c9_none_code_treated_as_empty (u : Rule116.Unit) (h : u.code = none) :
    (scan_unit u).rule116_findings
        = (scan_unit { u with code := some [] }).rule116_findings
  ∧ (scan_unit u).rule116_findings = [] := by
  have hnil : stmtMatches ([] : List Char) = [] :=
    stmtMatches_nil_of_no_dot [] (by simp)
  constructor
  · simp [scan_unit, h, hnil, scanLoop]
  · simp [scan_unit, h, hnil, scanLoop]

/-- Witness for C9: the code-less fixture scans like the empty string. -/
theorem c9_witness :
    (scan_unit uNoCode).rule116_findings
        = (scan_unit { uNoCode with code := some [] }).rule116_findings
  ∧ (scan_unit uNoCode).rule116_findings = [] :=
  c9_none_code_treated_as_empty uNoCode rfl

/-- C10: the number of findings is at most the number of terminator
characters in the source text. -/
theorem c10_findings_at_most_dot_count (u : Rule116.Unit) :
    (scan_unit u).rule116_findings.length ≤ (u.code.getD []).count '.' := by
  rw [scan_unit_findings, List.length_map]
  calc (qualMatches (u.code.getD [])).length
      ≤ (stmtMatches (u.code.getD [])).length := List.length_filter_le _ _
    _ ≤ (u.code.getD []).count '.' := stmtMatches_length_le _

end Rule116
